import Mathlib

/-
  Verification development for the DRG-PoRep circuit orchestrator
  (src/circuit/drgporep.rs).

  The orchestrator `drgporep` is embedded shallowly: the bellman
  constraint-system substrate is modelled as an explicit state
  (`CSState`) threaded through every step, and each fallible step
  returns `Except AsmError` together with the (possibly mutated)
  state.  Rust panics (assert_eq!, slice index out of bounds) and
  recoverable `SynthesisError`s are distinguished in `AsmError`.

  The three delegated sub-circuits (Merkle inclusion, KDF, sloth
  decode) and the byte-to-bit utility live in repository files that
  are not part of src/; they are modelled from the spec, as marked by
  doc comments starting with "Modelled from the spec:".
-/

namespace DrgPorep

/-- Order of the BLS12-381 scalar field, over which all circuit values live. -/
def frOrder : Nat :=
  52435875175126190479447740508185965837690552500527637822603658699938581184513

/-- A circuit field element (a BLS12-381 scalar). -/
abbrev Fr := ZMod frOrder

/-- Modelled from the spec: bit length of a BLS12-381 scalar field element;
its little-endian bit decomposition (sapling's field decomposition, absent
from src/) has this many bits. -/
def frNumBits : Nat := 255

/-- Modelled from the spec: the packing width used when bits are packed into
public-input field elements (the field capacity, one bit less than the full
field size). -/
def capacity : Nat := 254

/-- Assembly mode: `shape` builds only the universal circuit shape (no
witness evaluation, as in parameter generation), `concrete` requires every
allocated value to be supplied. -/
inductive Mode
  | shape
  | concrete
deriving DecidableEq

/-- The recoverable synthesis errors used by the orchestrator. -/
inductive SynthErr
  | assignmentMissing
deriving DecidableEq

/-- Assembly-time failure classes: fatal panics (failed `assert_eq!`,
slice index out of bounds) and propagated synthesis errors. -/
inductive AsmError
  | assertFail (msg : String)
  | indexOutOfBounds
  | synthesis (e : SynthErr)
deriving DecidableEq

/-- A circuit variable: a public input or an auxiliary (witness) variable,
identified by its allocation index. -/
inductive Var
  | input (i : Nat)
  | aux (i : Nat)
deriving DecidableEq

/-- A linear combination of variables with field coefficients. -/
abbrev LC := List (Var × Fr)

/-- A public input as recorded by the substrate: its namespace path, its
label, and (in concrete mode) its assigned value. -/
structure InputEntry where
  ns : List String
  name : String
  value : Option Fr
deriving DecidableEq

/-- An auxiliary (witness) variable as recorded by the substrate. -/
structure AuxEntry where
  ns : List String
  name : String
  value : Option Fr
deriving DecidableEq

/-- A constraint recorded by the substrate.  `enforce` is an explicit rank-1
constraint `a * b = c` added directly by the code under verification;
`delegated` marks the block of constraints added by an external sub-circuit
(whose internals are out of scope and therefore not itemised). -/
inductive Constraint
  | enforce (ns : List String) (name : String) (a b c : LC)
  | delegated (ns : List String) (tag : String)
deriving DecidableEq

/-- The constraint-system substrate state: assembly mode plus the ordered
sequences of public inputs, auxiliary variables and constraints.  All three
sequences are mutated only by appending. -/
structure CSState where
  mode : Mode
  inputs : List InputEntry
  aux : List AuxEntry
  constraints : List Constraint
deriving DecidableEq

/-- A fresh constraint system: bellman systems start with the fixed public
input `ONE` (index 0) carrying the value one. -/
def CSState.init (m : Mode) : CSState :=
  ⟨m, [⟨[], "ONE", some 1⟩], [], []⟩

/-- Append a public input. -/
def CSState.pushInput (s : CSState) (ns : List String) (name : String)
    (v : Option Fr) : CSState :=
  { s with inputs := s.inputs ++ [⟨ns, name, v⟩] }

/-- Append an auxiliary variable. -/
def CSState.pushAux (s : CSState) (ns : List String) (name : String)
    (v : Option Fr) : CSState :=
  { s with aux := s.aux ++ [⟨ns, name, v⟩] }

/-- Append the (opaque) constraint block of a delegated sub-circuit. -/
def CSState.pushDelegated (s : CSState) (ns : List String) (tag : String) :
    CSState :=
  { s with constraints := s.constraints ++ [.delegated ns tag] }

/-- Append one explicit rank-1 constraint (`cs.enforce`). -/
def CSState.pushEnforce (s : CSState) (ns : List String) (name : String)
    (a b c : LC) : CSState :=
  { s with constraints := s.constraints ++ [.enforce ns name a b c] }

/-- Sequencing of fallible assembly steps: an error short-circuits the rest
of the assembly but keeps whatever state the failing step left behind
(the Rust code mutates `cs` in place and propagates `Err` with `?`). -/
def andThen {α β : Type} (x : Except AsmError α × CSState)
    (f : α → CSState → Except AsmError β × CSState) :
    Except AsmError β × CSState :=
  match x with
  | (.ok a, s) => f a s
  | (.error e, s) => (.error e, s)

/-- An allocated number: the index of its auxiliary variable together with
its assigned value (absent in shape mode). -/
structure ANum where
  var : Nat
  value : Option Fr
deriving DecidableEq

/-- Allocate a public input.  In shape mode the value is ignored; in
concrete mode a missing value is a missing-assignment synthesis error. -/
def allocInput (ns : List String) (name : String) (v : Option Fr)
    (cs : CSState) : Except AsmError Unit × CSState :=
  match cs.mode with
  | .shape => (.ok (), cs.pushInput ns name none)
  | .concrete =>
    match v with
    | none => (.error (.synthesis .assignmentMissing), cs)
    | some x => (.ok (), cs.pushInput ns name (some x))

/-- Allocate an auxiliary (witness) variable, returning its handle.  In
shape mode the value is ignored; in concrete mode a missing value is a
missing-assignment synthesis error. -/
def allocAux (ns : List String) (name : String) (v : Option Fr)
    (cs : CSState) : Except AsmError ANum × CSState :=
  match cs.mode with
  | .shape => (.ok ⟨cs.aux.length, none⟩, cs.pushAux ns name none)
  | .concrete =>
    match v with
    | none => (.error (.synthesis .assignmentMissing), cs)
    | some x => (.ok ⟨cs.aux.length, some x⟩, cs.pushAux ns name (some x))

/-- A circuit boolean wire: either an allocated bit (with its optional
witness value) or a compile-time constant bit. -/
inductive CBool
  | is (v : Option Bool)
  | constant (b : Bool)
deriving DecidableEq

/-- The witness value of a boolean wire, when known. -/
def CBool.val : CBool → Option Bool
  | .is v => v
  | .constant b => some b

/-- Little-endian packing of a bit sequence into one field element. -/
def packBitsFr (bs : List Bool) : Fr :=
  bs.foldr (fun b acc => (if b then (1 : Fr) else 0) + 2 * acc) 0

/-- The little-endian bits of a byte string: bit `j` is bit `j % 8` of byte
`j / 8`, for `8 * lambda` bits in total. -/
def bytesBits (bytes : List Nat) (lambda : Nat) : List CBool :=
  (List.range (8 * lambda)).map fun j =>
    .is (some (Nat.testBit (bytes.getD (j / 8) 0) (j % 8)))

/-- Modelled from the spec: `util::bytes_into_boolean_vec` (absent from
src/) converts an optional byte string into allocated little-endian boolean
wires (one boolean constraint per bit, recorded as one delegated block);
absence of the bytes is permitted only in shape mode. -/
def bytesIntoBooleanVec (ns : List String) (bytes : Option (List Nat))
    (lambda : Nat) (cs : CSState) : Except AsmError (List CBool) × CSState :=
  match cs.mode, bytes with
  | .concrete, none => (.error (.synthesis .assignmentMissing), cs)
  | .concrete, some b =>
    (.ok (bytesBits b lambda), cs.pushDelegated ns "boolean constraints")
  | .shape, _ =>
    (.ok ((List.range (8 * lambda)).map fun _ => .is none),
      cs.pushDelegated ns "boolean constraints")

/-- The values of a sequence of boolean wires, when all are known. -/
def valsOf : List CBool → Option (List Bool)
  | [] => some []
  | b :: bs =>
    match CBool.val b, valsOf bs with
    | some v, some vs => some (v :: vs)
    | _, _ => none

/-- The packed value of one chunk of boolean wires, when all values are
known. -/
def chunkVal (chunk : List CBool) : Option Fr :=
  (valsOf chunk).map packBitsFr

/-- Split a bit sequence into capacity-sized chunks for input packing. -/
def packChunks (bits : List CBool) : List (List CBool) :=
  (List.range ((bits.length + capacity - 1) / capacity)).map fun i =>
    (bits.drop (capacity * i)).take capacity

/-- The label of the `i`-th packed public input. -/
def packedName (i : Nat) : String := "input " ++ toString i

/-- Allocate one public input per chunk, in order. -/
def packLoop (ns : List String) :
    List (List CBool) → Nat → CSState → Except AsmError Unit × CSState
  | [], _, cs => (.ok (), cs)
  | chunk :: rest, i, cs =>
    andThen (allocInput ns (packedName i) (chunkVal chunk) cs) fun _ cs =>
    packLoop ns rest (i + 1) cs

/-- Modelled from the spec: `multipack::pack_into_inputs` (external
substrate utility, absent from src/) packs boolean wires into
capacity-sized public-input field elements, adding one packing constraint
block. -/
def packIntoInputs (ns : List String) (bits : List CBool) (cs : CSState) :
    Except AsmError Unit × CSState :=
  andThen (packLoop ns (packChunks bits) 0 cs) fun _ cs =>
  (.ok (), cs.pushDelegated ns "packing constraints")

/-- The direction bits of a Merkle path, when all path elements are
supplied. -/
def dirsOf : List (Option (Fr × Bool)) → Option (List Bool)
  | [] => some []
  | none :: _ => none
  | some e :: rest => (dirsOf rest).map fun ds => e.2 :: ds

/-- The packed value of a Merkle path's direction bits, when all path
elements are supplied. -/
def pathPackedVal (path : List (Option (Fr × Bool))) : Option Fr :=
  (dirsOf path).map packBitsFr

/-- Modelled from the spec: the external Merkle-inclusion sub-circuit
`proof_of_retrievability` (circuit/por.rs, absent from src/).  It exposes,
in order, the leaf value, the packed path direction bits, and the stated
root as public inputs, and adds its (out-of-scope) hashing constraints as
one delegated block.  Missing witness values are permitted only in shape
mode. -/
def por (ns : List String) (lambda : Nat) (leaf : Option Fr)
    (path : List (Option (Fr × Bool))) (root : Option Fr) (cs : CSState) :
    Except AsmError Unit × CSState :=
  andThen (allocInput ns "value" leaf cs) fun _ cs =>
  andThen (allocInput ns "path" (pathPackedVal path) cs) fun _ cs =>
  andThen (allocInput ns "root" root cs) fun _ cs =>
  (.ok (), cs.pushDelegated ns "merkle inclusion constraints")

/-- The per-parent inclusion-check loop of the orchestrator: for each index
`i` below the number of parents it verifies parent `i` against `paths[i]`.
There is no count precondition: indexing a missing path is a fatal panic,
and surplus paths are never consumed. -/
def parentsLoop (lambda : Nat) (root : Option Fr) :
    List (Option Fr) → List (List (Option (Fr × Bool))) → Nat → CSState →
    Except AsmError Unit × CSState
  | [], _, _, cs => (.ok (), cs)
  | _ :: _, [], _, cs => (.error .indexOutOfBounds, cs)
  | v :: vs, p :: ps, i, cs =>
    andThen (por ["replica parent: " ++ toString i] lambda v p root cs)
      fun _ cs =>
    parentsLoop lambda root vs ps (i + 1) cs

/-- Modelled from the spec: `boolean::field_into_boolean_vec_le` (external,
absent from src/) produces the little-endian bit decomposition of an
optional field element as `frNumBits` allocated boolean wires. -/
def fieldIntoBooleanVecLE (v : Option Fr) : List CBool :=
  (List.range frNumBits).map fun i => .is (v.map fun x => x.val.testBit i)

/-- The monadic wrapper of the decomposition: it adds the decomposition's
boolean-constraint block and, in concrete mode, rejects a missing value. -/
def fieldIntoBooleanVecLEM (ns : List String) (v : Option Fr)
    (cs : CSState) : Except AsmError (List CBool) × CSState :=
  match cs.mode, v with
  | .concrete, none => (.error (.synthesis .assignmentMissing), cs)
  | _, _ => (.ok (fieldIntoBooleanVecLE v), cs.pushDelegated ns "boolean constraints")

/-- One pass of the source's padding loop, with explicit fuel:
`while v.len() < 256 { v.push(Boolean::Constant(false)) }`. -/
def padLoop : Nat → List CBool → List CBool
  | 0, v => v
  | fuel + 1, v =>
    if v.length < 256 then padLoop fuel (v ++ [.constant false]) else v

/-- The source's padding loop: starting from a decomposition of at most 256
bits, at most 256 pushes are ever needed, so 256 units of fuel make the
fuelled loop equal to the unbounded one. -/
def padTo256 (v : List CBool) : List CBool := padLoop 256 v

/-- The pure content of the parent bit assembler (lines 112-130 of the
source): each parent value is decomposed to little-endian bits and padded
with constant-false bits up to width 256, order preserved. -/
def parentsToBits (parents : List (Option Fr)) : List (List CBool) :=
  parents.map fun v => padTo256 (fieldIntoBooleanVecLE v)

/-- The parent bit assembler as run inside the constraint system: one
namespace (and one decomposition constraint block) per parent. -/
def parentsToBitsLoop :
    List (Option Fr) → Nat → CSState →
    Except AsmError (List (List CBool)) × CSState
  | [], _, cs => (.ok [], cs)
  | v :: vs, i, cs =>
    andThen (fieldIntoBooleanVecLEM ["parents to bits", "parent " ++ toString i] v cs)
      fun bits cs =>
    andThen (parentsToBitsLoop vs (i + 1) cs) fun rest cs =>
    (.ok (padTo256 bits :: rest), cs)

/-- Modelled from the spec: the value computed by the key-derivation
sub-circuit.  Its algebra is out of scope (§1 of the spec); it is modelled
only as a deterministic function of the identity bits, the parent bit
vectors and the degree, which is all any claim relies on. -/
def kdfF (l : List Bool) (m : Nat) : Fr := packBitsFr l + (m : Fr)

/-- The optional KDF output value: known exactly when every input bit value
is known. -/
def kdfValOpt (idBits : List CBool) (parentsBits : List (List CBool))
    (m : Nat) : Option Fr :=
  (valsOf (idBits ++ parentsBits.foldr (fun a b => a ++ b) [])).map
    fun l => kdfF l m

/-- Modelled from the spec: the external KDF sub-circuit (circuit/kdf.rs,
absent from src/): the degree `m` bounds and validates the expected parent
count — a parent count different from the degree is a fatal assembly-time
shape error (spec sections 4.4 and 7) — and the sub-circuit then folds the
identity bits and parent bit vectors into one derived-key witness variable
and adds its (out-of-scope) constraint block. -/
def kdf (ns : List String) (idBits : List CBool)
    (parentsBits : List (List CBool)) (m : Nat) (cs : CSState) :
    Except AsmError ANum × CSState :=
  if parentsBits.length = m then
    andThen (allocAux ns "kdf result" (kdfValOpt idBits parentsBits m) cs)
      fun key cs =>
    (.ok key, cs.pushDelegated ns "kdf constraints")
  else (.error (.assertFail "kdf parents.len() == m"), cs)

/-- Modelled from the spec: the fixed public round-count constant shared by
encode and decode (`sloth::DEFAULT_ROUNDS`, absent from src/; its numeric
value is irrelevant to every claim). -/
def DEFAULT_ROUNDS : Nat := 10

/-- Modelled from the spec: the value computed by the verifiable-delay
decoder.  Its algebra (the inverse of the replication encoding) is out of
scope (§1 of the spec); it is modelled only as a deterministic function of
key, ciphertext and round count, which is all any claim relies on. -/
def slothDecodeVal (key c : Fr) (rounds : Nat) : Fr := c - key + (rounds : Fr) * 0

/-- Modelled from the spec: the external sloth-decode sub-circuit
(circuit/sloth.rs, absent from src/): it produces the decoded candidate as
one witness variable and adds its (out-of-scope) constraint block. -/
def slothDecode (ns : List String) (key : ANum) (ciphertext : Option Fr)
    (rounds : Nat) (cs : CSState) : Except AsmError ANum × CSState :=
  andThen (allocAux ns "decoded"
      (match key.value, ciphertext with
       | some k, some c => some (slothDecodeVal k c rounds)
       | _, _ => none) cs) fun d cs =>
  (.ok d, cs.pushDelegated ns "sloth decode constraints")

/-- The orchestrator's prover-identity length assertion:
`assert_eq!(prover_id.len(), 32)`, checked only when an identity is
present. -/
def proverIdLenOk : Option (List Nat) → Bool
  | some p => p.length == 32
  | none => true

/-- The DRG-PoRep circuit orchestrator, translated from
`drgporep` in src/circuit/drgporep.rs: shape asserts, identity bitization
and packing, replica / per-parent / data inclusion checks, parent bit
assembly, key derivation, sloth decoding, allocation of the data-leaf
witness, and the single equality constraint
`expected * 1 = decoded`. -/
def drgporep (lambda : Nat) (replica_node : Option Fr)
    (replica_node_path : List (Option (Fr × Bool))) (replica_root : Option Fr)
    (replica_parents : List (Option Fr))
    (replica_parents_paths : List (List (Option (Fr × Bool))))
    (data_node : Option Fr) (data_node_path : List (Option (Fr × Bool)))
    (data_root : Option Fr) (prover_id : Option (List Nat)) (m : Nat)
    (cs : CSState) : Except AsmError Unit × CSState :=
  if data_node_path.length = replica_node_path.length then
    if proverIdLenOk prover_id then
      andThen (bytesIntoBooleanVec ["prover_id bits"] prover_id lambda cs)
        fun prover_id_bits cs =>
      andThen (packIntoInputs ["prover_id"] prover_id_bits cs) fun _ cs =>
      andThen (por ["replica_node merkle proof"] lambda replica_node
          replica_node_path replica_root cs) fun _ cs =>
      andThen (parentsLoop lambda replica_root replica_parents
          replica_parents_paths 0 cs) fun _ cs =>
      andThen (por ["data node commitment"] lambda data_node data_node_path
          data_root cs) fun _ cs =>
      andThen (parentsToBitsLoop replica_parents 0 cs) fun parents_bits cs =>
      andThen (kdf ["kdf"] prover_id_bits parents_bits m cs) fun key cs =>
      andThen (slothDecode ["decode replica node commitment"] key
          replica_node DEFAULT_ROUNDS cs) fun decoded cs =>
      andThen (allocAux ["data node"] "num" data_node cs) fun expected cs =>
      (.ok (), cs.pushEnforce [] "encrypted matches data_node constraint"
        [(.aux expected.var, 1)] [(.input 0, 1)] [(.aux decoded.var, 1)])
    else (.error (.assertFail "prover_id.len() == 32"), cs)
  else (.error (.assertFail "data_node_path.len() == replica_node_path.len()"), cs)

/-- The value assigned to a variable by the recorded state. -/
def CSState.varVal (s : CSState) : Var → Option Fr
  | .input i => (s.inputs[i]?).bind InputEntry.value
  | .aux i => (s.aux[i]?).bind AuxEntry.value

/-- The summands of a linear combination under the recorded assignment,
when every variable has a value. -/
def CSState.lcTerms (s : CSState) : LC → Option (List Fr)
  | [] => some []
  | p :: ps =>
    match s.varVal p.1, s.lcTerms ps with
    | some x, some xs => some (p.2 * x :: xs)
    | _, _ => none

/-- Evaluate a linear combination under the recorded assignment. -/
def CSState.lcEval (s : CSState) (lc : LC) : Option Fr :=
  (s.lcTerms lc).map List.sum

/-- Satisfaction of a constraint under the recorded assignment.  Delegated
blocks are out of scope and count as satisfied. -/
def Constraint.holds (s : CSState) : Constraint → Prop
  | .enforce _ _ a b c =>
    match s.lcEval a, s.lcEval b, s.lcEval c with
    | some x, some y, some z => x * y = z
    | _, _, _ => False
  | .delegated _ _ => True

/-- Whether a constraint is an explicit rank-1 constraint added at the
orchestrator's own (root) namespace, as opposed to inside a sub-circuit. -/
def Constraint.isRootEnforce : Constraint → Bool
  | .enforce [] _ _ _ _ => true
  | _ => false

/-- The constraints the orchestrator itself added (root namespace). -/
def CSState.rootEnforces (s : CSState) : List Constraint :=
  s.constraints.filter Constraint.isRootEnforce

/-- Layout description used in theorem statements: the three public inputs
one inclusion check contributes, in order. -/
def porInputsF (ns : List String) (leaf : Option Fr)
    (path : List (Option (Fr × Bool))) (root : Option Fr) : List InputEntry :=
  [⟨ns, "value", leaf⟩, ⟨ns, "path", pathPackedVal path⟩, ⟨ns, "root", root⟩]

/-- Layout description used in theorem statements: the public inputs the
per-parent inclusion checks contribute, in order. -/
def parentsInputsF (root : Option Fr) :
    List (Option Fr) → List (List (Option (Fr × Bool))) → Nat →
    List InputEntry
  | [], _, _ => []
  | _ :: _, [], _ => []
  | v :: vs, p :: ps, i =>
    porInputsF ["replica parent: " ++ toString i] v p root ++
      parentsInputsF root vs ps (i + 1)

/-- Layout description used in theorem statements: the delegated constraint
blocks of the per-parent inclusion checks, in order. -/
def parentsBlocksF : List (Option Fr) → Nat → List Constraint
  | [], _ => []
  | _ :: vs, i =>
    .delegated ["replica parent: " ++ toString i] "merkle inclusion constraints" ::
      parentsBlocksF vs (i + 1)

/-- Layout description used in theorem statements: the delegated constraint
blocks of the per-parent bit decompositions, in order. -/
def p2bBlocksF : List (Option Fr) → Nat → List Constraint
  | [], _ => []
  | _ :: vs, i =>
    .delegated ["parents to bits", "parent " ++ toString i] "boolean constraints" ::
      p2bBlocksF vs (i + 1)

/-- Layout description used in theorem statements: the packed identity
public inputs, in order. -/
def packedEntriesF (ns : List String) :
    List (List CBool) → Nat → List InputEntry
  | [], _ => []
  | c :: rest, i => ⟨ns, packedName i, chunkVal c⟩ :: packedEntriesF ns rest (i + 1)

/-- A small fully witnessed concrete instance (depth-1 trees, two parents,
degree two, all field values zero, a 32-byte zero identity) used to exhibit
the assembled circuit on explicit inputs. -/
def runFull : Except AsmError Unit × CSState :=
  drgporep 32 (some 0) [some (0, false)] (some 0) [some 0, some 0]
    [[some (0, false)], [some (0, false)]] (some 0) [some (0, false)] (some 0)
    (some (List.replicate 32 0)) 2 (CSState.init .concrete)

/-- A shape-mode instance with one parent value but two parent paths
(mismatched value/path counts) and degree one (so the parent count agrees
with the degree). -/
def runMismatch : Except AsmError Unit × CSState :=
  drgporep 32 none [none] none [none] [[none], [none]] none [none] none none 1
    (CSState.init .shape)

/-- A concrete instance with a full witness except the original-data leaf,
which is omitted. -/
def runNoData : Except AsmError Unit × CSState :=
  drgporep 32 (some 0) [some (0, false)] (some 0) [some 0]
    [[some (0, false)]] none [some (0, false)] (some 0)
    (some (List.replicate 32 0)) 6 (CSState.init .concrete)

/-- The spec's regression instance shape: leaf size 32 bytes, six parents,
depth-4 paths (twelve leaves), one challenge, fully witnessed with zero
values. -/
def runSpecParams : Except AsmError Unit × CSState :=
  drgporep 32 (some 0) (List.replicate 4 (some (0, false))) (some 0)
    (List.replicate 6 (some 0))
    (List.replicate 6 (List.replicate 4 (some (0, false))))
    (some 0) (List.replicate 4 (some (0, false))) (some 0)
    (some (List.replicate 32 0)) 6 (CSState.init .concrete)

/-! ### Basic lemmas about the substrate state and sequencing -/

@[simp] theorem CSState.pushInput_mode (s : CSState) (ns : List String) (n : String)
    (v : Option Fr) : (s.pushInput ns n v).mode = s.mode := rfl

@[simp] theorem CSState.pushInput_aux (s : CSState) (ns : List String) (n : String)
    (v : Option Fr) : (s.pushInput ns n v).aux = s.aux := rfl

@[simp] theorem CSState.pushInput_constraints (s : CSState) (ns : List String) (n : String)
    (v : Option Fr) : (s.pushInput ns n v).constraints = s.constraints := rfl

@[simp] theorem CSState.pushInput_inputs (s : CSState) (ns : List String) (n : String)
    (v : Option Fr) : (s.pushInput ns n v).inputs = s.inputs ++ [⟨ns, n, v⟩] := rfl

@[simp] theorem CSState.pushAux_mode (s : CSState) (ns : List String) (n : String)
    (v : Option Fr) : (s.pushAux ns n v).mode = s.mode := rfl

@[simp] theorem CSState.pushAux_inputs (s : CSState) (ns : List String) (n : String)
    (v : Option Fr) : (s.pushAux ns n v).inputs = s.inputs := rfl

@[simp] theorem CSState.pushAux_constraints (s : CSState) (ns : List String) (n : String)
    (v : Option Fr) : (s.pushAux ns n v).constraints = s.constraints := rfl

@[simp] theorem CSState.pushAux_aux (s : CSState) (ns : List String) (n : String)
    (v : Option Fr) : (s.pushAux ns n v).aux = s.aux ++ [⟨ns, n, v⟩] := rfl

@[simp] theorem CSState.pushDelegated_mode (s : CSState) (ns : List String) (t : String) :
    (s.pushDelegated ns t).mode = s.mode := rfl

@[simp] theorem CSState.pushDelegated_inputs (s : CSState) (ns : List String) (t : String) :
    (s.pushDelegated ns t).inputs = s.inputs := rfl

@[simp] theorem CSState.pushDelegated_aux (s : CSState) (ns : List String) (t : String) :
    (s.pushDelegated ns t).aux = s.aux := rfl

@[simp] theorem CSState.pushDelegated_constraints (s : CSState) (ns : List String) (t : String) :
    (s.pushDelegated ns t).constraints = s.constraints ++ [.delegated ns t] := rfl

theorem andThen_ok {α β : Type} {x : Except AsmError α × CSState} {a : α} {s : CSState}
    (f : α → CSState → Except AsmError β × CSState) (h : x = (.ok a, s)) :
    andThen x f = f a s := by
  rw [h]
  rfl

theorem andThen_err {α β : Type} {x : Except AsmError α × CSState} {e : AsmError}
    {s : CSState} (f : α → CSState → Except AsmError β × CSState)
    (h : x = (.error e, s)) : andThen x f = (.error e, s) := by
  rw [h]
  rfl

theorem allocInput_concrete_isSome {s : CSState} (h : s.mode = .concrete)
    {v : Option Fr} (hv : v.isSome) (ns : List String) (n : String) :
    allocInput ns n v s = (.ok (), s.pushInput ns n v) := by
  obtain ⟨x, rfl⟩ := Option.isSome_iff_exists.mp hv
  unfold allocInput
  rw [h]

theorem allocInput_concrete_none {s : CSState} (h : s.mode = .concrete)
    (ns : List String) (n : String) :
    allocInput ns n none s = (.error (.synthesis .assignmentMissing), s) := by
  unfold allocInput
  rw [h]

theorem allocInput_shape {s : CSState} (h : s.mode = .shape) (ns : List String)
    (n : String) (v : Option Fr) :
    allocInput ns n v s = (.ok (), s.pushInput ns n none) := by
  unfold allocInput
  rw [h]

theorem allocAux_concrete_isSome {s : CSState} (h : s.mode = .concrete)
    {v : Option Fr} (hv : v.isSome) (ns : List String) (n : String) :
    allocAux ns n v s = (.ok ⟨s.aux.length, v⟩, s.pushAux ns n v) := by
  obtain ⟨x, rfl⟩ := Option.isSome_iff_exists.mp hv
  unfold allocAux
  rw [h]

theorem allocAux_concrete_none {s : CSState} (h : s.mode = .concrete)
    (ns : List String) (n : String) :
    allocAux ns n none s = (.error (.synthesis .assignmentMissing), s) := by
  unfold allocAux
  rw [h]

theorem allocAux_shape {s : CSState} (h : s.mode = .shape) (ns : List String)
    (n : String) (v : Option Fr) :
    allocAux ns n v s = (.ok ⟨s.aux.length, none⟩, s.pushAux ns n none) := by
  unfold allocAux
  rw [h]

theorem bytesIntoBooleanVec_concrete_some {s : CSState} (h : s.mode = .concrete)
    (ns : List String) (b : List Nat) (lambda : Nat) :
    bytesIntoBooleanVec ns (some b) lambda s =
      (.ok (bytesBits b lambda), s.pushDelegated ns "boolean constraints") := by
  unfold bytesIntoBooleanVec
  rw [h]

theorem bytesIntoBooleanVec_concrete_none {s : CSState} (h : s.mode = .concrete)
    (ns : List String) (lambda : Nat) :
    bytesIntoBooleanVec ns none lambda s =
      (.error (.synthesis .assignmentMissing), s) := by
  unfold bytesIntoBooleanVec
  rw [h]

theorem bytesIntoBooleanVec_shape {s : CSState} (h : s.mode = .shape)
    (ns : List String) (bytes : Option (List Nat)) (lambda : Nat) :
    bytesIntoBooleanVec ns bytes lambda s =
      (.ok ((List.range (8 * lambda)).map fun _ => .is none),
        s.pushDelegated ns "boolean constraints") := by
  unfold bytesIntoBooleanVec
  rw [h]

theorem fieldIntoBooleanVecLEM_concrete_isSome {s : CSState} (h : s.mode = .concrete)
    {v : Option Fr} (hv : v.isSome) (ns : List String) :
    fieldIntoBooleanVecLEM ns v s =
      (.ok (fieldIntoBooleanVecLE v), s.pushDelegated ns "boolean constraints") := by
  obtain ⟨x, rfl⟩ := Option.isSome_iff_exists.mp hv
  unfold fieldIntoBooleanVecLEM
  rw [h]

theorem fieldIntoBooleanVecLEM_shape {s : CSState} (h : s.mode = .shape)
    (ns : List String) (v : Option Fr) :
    fieldIntoBooleanVecLEM ns v s =
      (.ok (fieldIntoBooleanVecLE v), s.pushDelegated ns "boolean constraints") := by
  unfold fieldIntoBooleanVecLEM
  rw [h]

/-! ### Known-value lemmas -/

theorem valsOf_isSome : ∀ l : List CBool,
    (∀ b ∈ l, (CBool.val b).isSome) → (valsOf l).isSome := by
  intro l
  induction l with
  | nil => intro _; rfl
  | cons b bs ih =>
    intro h
    obtain ⟨v, hv⟩ := Option.isSome_iff_exists.mp (h b (by simp))
    obtain ⟨vs, hvs⟩ :=
      Option.isSome_iff_exists.mp (ih fun x hx => h x (by simp [hx]))
    simp [valsOf, hv, hvs]

theorem bytesBits_known (p : List Nat) (lambda : Nat) :
    ∀ b ∈ bytesBits p lambda, (CBool.val b).isSome := by
  intro b hb
  simp only [bytesBits, List.mem_map, List.mem_range] at hb
  obtain ⟨j, _, rfl⟩ := hb
  rfl

theorem fieldIntoBooleanVecLE_known (x : Fr) :
    ∀ b ∈ fieldIntoBooleanVecLE (some x), (CBool.val b).isSome := by
  intro b hb
  simp only [fieldIntoBooleanVecLE, List.mem_map, List.mem_range] at hb
  obtain ⟨j, _, rfl⟩ := hb
  rfl

theorem padLoop_mem : ∀ (fuel : Nat) (v : List CBool) (b : CBool),
    b ∈ padLoop fuel v → b ∈ v ∨ b = .constant false := by
  intro fuel
  induction fuel with
  | zero => intro v b hb; exact Or.inl hb
  | succ f ih =>
    intro v b hb
    simp only [padLoop] at hb
    by_cases hlt : v.length < 256
    · rw [if_pos hlt] at hb
      rcases ih _ _ hb with h | h
      · rcases List.mem_append.mp h with h2 | h2
        · exact Or.inl h2
        · simp only [List.mem_singleton] at h2
          exact Or.inr h2
      · exact Or.inr h
    · rw [if_neg hlt] at hb
      exact Or.inl hb

theorem parentsToBits_known (parents : List (Option Fr))
    (hpar : ∀ v ∈ parents, v.isSome) :
    ∀ l ∈ parentsToBits parents, ∀ b ∈ l, (CBool.val b).isSome := by
  intro l hl b hb
  simp only [parentsToBits, List.mem_map] at hl
  obtain ⟨v, hv, rfl⟩ := hl
  obtain ⟨x, rfl⟩ := Option.isSome_iff_exists.mp (hpar v hv)
  rcases padLoop_mem _ _ _ hb with h | h
  · exact fieldIntoBooleanVecLE_known x b h
  · rw [h]; rfl

theorem mem_foldr_append {α : Type} : ∀ (ls : List (List α)) (b : α),
    b ∈ ls.foldr (fun a c => a ++ c) [] → ∃ l ∈ ls, b ∈ l := by
  intro ls
  induction ls with
  | nil => intro b hb; simp at hb
  | cons l rest ih =>
    intro b hb
    simp only [List.foldr] at hb
    rcases List.mem_append.mp hb with h | h
    · exact ⟨l, by simp, h⟩
    · obtain ⟨l2, hl2, hb2⟩ := ih b h
      exact ⟨l2, by simp [hl2], hb2⟩

theorem kdfValOpt_isSome (pid : List Nat) (lambda m : Nat)
    (parents : List (Option Fr)) (hpar : ∀ v ∈ parents, v.isSome) :
    (kdfValOpt (bytesBits pid lambda) (parentsToBits parents) m).isSome := by
  have hknown : ∀ b ∈ bytesBits pid lambda ++
      (parentsToBits parents).foldr (fun a c => a ++ c) [],
      (CBool.val b).isSome := by
    intro b hb
    rcases List.mem_append.mp hb with h | h
    · exact bytesBits_known pid lambda b h
    · obtain ⟨l, hl, hbl⟩ := mem_foldr_append _ b h
      exact parentsToBits_known parents hpar l hl b hbl
  obtain ⟨l, hl⟩ := Option.isSome_iff_exists.mp (valsOf_isSome _ hknown)
  simp [kdfValOpt, hl]

theorem dirsOf_isSome : ∀ path : List (Option (Fr × Bool)),
    (∀ e ∈ path, e.isSome) → (dirsOf path).isSome := by
  intro path
  induction path with
  | nil => intro _; rfl
  | cons e rest ih =>
    intro h
    obtain ⟨p, rfl⟩ := Option.isSome_iff_exists.mp (h e (by simp))
    obtain ⟨ds, hds⟩ :=
      Option.isSome_iff_exists.mp (ih fun x hx => h x (by simp [hx]))
    simp [dirsOf, hds]

theorem pathPackedVal_isSome (path : List (Option (Fr × Bool)))
    (hpath : ∀ e ∈ path, e.isSome) : (pathPackedVal path).isSome := by
  obtain ⟨ds, hds⟩ := Option.isSome_iff_exists.mp (dirsOf_isSome path hpath)
  simp [pathPackedVal, hds]

theorem packChunks_chunkVal_isSome (bits : List CBool)
    (hb : ∀ b ∈ bits, (CBool.val b).isSome) :
    ∀ c ∈ packChunks bits, (chunkVal c).isSome := by
  intro c hc
  simp only [packChunks, List.mem_map, List.mem_range] at hc
  obtain ⟨i, _, rfl⟩ := hc
  have hk : ∀ b ∈ (bits.drop (capacity * i)).take capacity,
      (CBool.val b).isSome := by
    intro b hbb
    exact hb b (List.drop_subset _ _ (List.take_subset _ _ hbb))
  obtain ⟨l, hl⟩ := Option.isSome_iff_exists.mp (valsOf_isSome _ hk)
  simp [chunkVal, hl]

/-! ### Characterisation of each assembly step in concrete mode -/

theorem por_concrete_ok {s : CSState} (h : s.mode = .concrete)
    (ns : List String) (lambda : Nat) (lv rv : Fr)
    (path : List (Option (Fr × Bool))) (hpath : ∀ e ∈ path, e.isSome) :
    por ns lambda (some lv) path (some rv) s =
      (.ok (), { s with
        inputs := s.inputs ++ porInputsF ns (some lv) path (some rv),
        constraints := s.constraints ++
          [.delegated ns "merkle inclusion constraints"] }) := by
  unfold por
  rw [andThen_ok _ (allocInput_concrete_isSome h (by simp) ns "value")]
  rw [andThen_ok _ (allocInput_concrete_isSome (by simp [h])
    (pathPackedVal_isSome path hpath) ns "path")]
  rw [andThen_ok _ (allocInput_concrete_isSome (by simp [h]) (by simp) ns "root")]
  simp [CSState.pushInput, CSState.pushDelegated, porInputsF]

theorem parentsLoop_concrete_ok (lambda : Nat) (rv : Fr) :
    ∀ (parents : List (Option Fr))
      (paths : List (List (Option (Fr × Bool)))) (i : Nat) (s : CSState),
      s.mode = .concrete → (∀ v ∈ parents, v.isSome) →
      parents.length ≤ paths.length →
      (∀ p ∈ paths, ∀ e ∈ p, e.isSome) →
      parentsLoop lambda (some rv) parents paths i s =
        (.ok (), { s with
          inputs := s.inputs ++ parentsInputsF (some rv) parents paths i,
          constraints := s.constraints ++ parentsBlocksF parents i }) := by
  intro parents
  induction parents with
  | nil =>
    intro paths i s h _ _ _
    simp [parentsLoop, parentsInputsF, parentsBlocksF]
  | cons v vs ih =>
    intro paths i s h hpar hlen hpaths
    cases paths with
    | nil => simp at hlen
    | cons p ps =>
      obtain ⟨lv, rfl⟩ := Option.isSome_iff_exists.mp (hpar v (by simp))
      simp only [parentsLoop]
      rw [andThen_ok _ (por_concrete_ok h _ lambda lv rv p (hpaths p (by simp)))]
      rw [ih ps (i + 1) _ (by simp [h]) (fun x hx => hpar x (by simp [hx]))
        (by simpa using hlen) (fun q hq e he => hpaths q (by simp [hq]) e he)]
      simp [parentsInputsF, parentsBlocksF, List.append_assoc]

theorem parentsToBitsLoop_concrete_ok :
    ∀ (parents : List (Option Fr)) (i : Nat) (s : CSState),
      s.mode = .concrete → (∀ v ∈ parents, v.isSome) →
      parentsToBitsLoop parents i s =
        (.ok (parentsToBits parents),
          { s with constraints := s.constraints ++ p2bBlocksF parents i }) := by
  intro parents
  induction parents with
  | nil =>
    intro i s h _
    simp [parentsToBitsLoop, parentsToBits, p2bBlocksF]
  | cons v vs ih =>
    intro i s h hpar
    obtain ⟨x, rfl⟩ := Option.isSome_iff_exists.mp (hpar v (by simp))
    simp only [parentsToBitsLoop]
    rw [andThen_ok _ (fieldIntoBooleanVecLEM_concrete_isSome h (by simp) _)]
    rw [andThen_ok _ (ih (i + 1) _ (by simp [h])
      (fun x hx => hpar x (by simp [hx])))]
    simp [parentsToBits, p2bBlocksF, CSState.pushDelegated, List.append_assoc]

theorem packLoop_concrete_ok (ns : List String) :
    ∀ (chunks : List (List CBool)) (i : Nat) (s : CSState),
      s.mode = .concrete → (∀ c ∈ chunks, (chunkVal c).isSome) →
      packLoop ns chunks i s =
        (.ok (), { s with inputs := s.inputs ++ packedEntriesF ns chunks i }) := by
  intro chunks
  induction chunks with
  | nil =>
    intro i s h _
    simp [packLoop, packedEntriesF]
  | cons c rest ih =>
    intro i s h hv
    simp only [packLoop]
    rw [andThen_ok _ (allocInput_concrete_isSome h (hv c (by simp)) ns
      (packedName i))]
    rw [ih (i + 1) _ (by simp [h]) (fun x hx => hv x (by simp [hx]))]
    simp [packedEntriesF, CSState.pushInput, List.append_assoc]

theorem packIntoInputs_concrete_ok {s : CSState} (h : s.mode = .concrete)
    (ns : List String) (bits : List CBool)
    (hb : ∀ b ∈ bits, (CBool.val b).isSome) :
    packIntoInputs ns bits s =
      (.ok (), { s with
        inputs := s.inputs ++ packedEntriesF ns (packChunks bits) 0,
        constraints := s.constraints ++ [.delegated ns "packing constraints"] }) := by
  unfold packIntoInputs
  rw [andThen_ok _ (packLoop_concrete_ok ns (packChunks bits) 0 s h
    (packChunks_chunkVal_isSome bits hb))]
  simp [CSState.pushDelegated]

theorem kdf_concrete_ok {s : CSState} (h : s.mode = .concrete)
    (ns : List String) (idBits : List CBool) (pbits : List (List CBool))
    (m : Nat) (hm : pbits.length = m)
    (hk : (kdfValOpt idBits pbits m).isSome) :
    kdf ns idBits pbits m s =
      (.ok ⟨s.aux.length, kdfValOpt idBits pbits m⟩,
        (s.pushAux ns "kdf result" (kdfValOpt idBits pbits m)).pushDelegated
          ns "kdf constraints") := by
  unfold kdf
  rw [if_pos hm]
  rw [andThen_ok _ (allocAux_concrete_isSome h hk ns "kdf result")]

theorem slothDecode_concrete_ok {s : CSState} (h : s.mode = .concrete)
    (ns : List String) (kvar : Nat) (kv c : Fr) (rounds : Nat) :
    slothDecode ns ⟨kvar, some kv⟩ (some c) rounds s =
      (.ok ⟨s.aux.length, some (slothDecodeVal kv c rounds)⟩,
        (s.pushAux ns "decoded" (some (slothDecodeVal kv c rounds))).pushDelegated
          ns "sloth decode constraints") := by
  unfold slothDecode
  rw [andThen_ok _ (allocAux_concrete_isSome h (by simp) ns "decoded")]

/-- Concrete-mode execution of the orchestrator on a full witness: the run
succeeds and the final assembled state is completely determined — the
public-input layout, the three witness variables (derived key, decoded
candidate, data leaf) and the constraint blocks ending in the orchestrator's
single root-namespace equality constraint. -/
theorem drgporep_concrete_run
    (lambda m : Nat) (rn rr dnv drt : Fr) (pid : List Nat)
    (rnp dnp : List (Option (Fr × Bool)))
    (parents : List (Option Fr)) (paths : List (List (Option (Fr × Bool))))
    (hlen : dnp.length = rnp.length) (hpid : pid.length = 32)
    (hrnp : ∀ e ∈ rnp, e.isSome) (hdnp : ∀ e ∈ dnp, e.isSome)
    (hpar : ∀ v ∈ parents, v.isSome)
    (hplen : parents.length ≤ paths.length)
    (hpaths : ∀ p ∈ paths, ∀ e ∈ p, e.isSome)
    (hm : parents.length = m) :
    ∃ kv, kdfValOpt (bytesBits pid lambda) (parentsToBits parents) m = some kv ∧
      drgporep lambda (some rn) rnp (some rr) parents paths (some dnv) dnp
        (some drt) (some pid) m (CSState.init .concrete) =
      (.ok (), ⟨.concrete,
        ⟨[], "ONE", some 1⟩ ::
          (packedEntriesF ["prover_id"] (packChunks (bytesBits pid lambda)) 0 ++
           porInputsF ["replica_node merkle proof"] (some rn) rnp (some rr) ++
           parentsInputsF (some rr) parents paths 0 ++
           porInputsF ["data node commitment"] (some dnv) dnp (some drt)),
        [⟨["kdf"], "kdf result", some kv⟩,
         ⟨["decode replica node commitment"], "decoded",
           some (slothDecodeVal kv rn DEFAULT_ROUNDS)⟩,
         ⟨["data node"], "num", some dnv⟩],
        [.delegated ["prover_id bits"] "boolean constraints",
         .delegated ["prover_id"] "packing constraints",
         .delegated ["replica_node merkle proof"] "merkle inclusion constraints"] ++
        parentsBlocksF parents 0 ++
        [.delegated ["data node commitment"] "merkle inclusion constraints"] ++
        p2bBlocksF parents 0 ++
        [.delegated ["kdf"] "kdf constraints",
         .delegated ["decode replica node commitment"] "sloth decode constraints",
         .enforce [] "encrypted matches data_node constraint"
           [(.aux 2, 1)] [(.input 0, 1)] [(.aux 1, 1)]]⟩) := by
  obtain ⟨kv, hkv⟩ := Option.isSome_iff_exists.mp
    (kdfValOpt_isSome pid lambda m parents hpar)
  refine ⟨kv, hkv, ?_⟩
  unfold drgporep
  rw [if_pos hlen, if_pos (by simp [proverIdLenOk, hpid])]
  rw [andThen_ok _ (bytesIntoBooleanVec_concrete_some rfl _ pid lambda)]
  rw [andThen_ok _ (packIntoInputs_concrete_ok (by simp [CSState.init]) _ _
    (bytesBits_known pid lambda))]
  rw [andThen_ok _ (por_concrete_ok (by simp [CSState.init]) _ lambda rn rr rnp hrnp)]
  rw [andThen_ok _ (parentsLoop_concrete_ok lambda rr parents paths 0 _
    (by simp [CSState.init]) hpar hplen hpaths)]
  rw [andThen_ok _ (por_concrete_ok (by simp [CSState.init]) _ lambda dnv drt dnp hdnp)]
  rw [andThen_ok _ (parentsToBitsLoop_concrete_ok parents 0 _
    (by simp [CSState.init]) hpar)]
  rw [andThen_ok _ (kdf_concrete_ok (by simp [CSState.init]) _ _ _ m
    (by simp [parentsToBits, hm]) (by rw [hkv]; rfl))]
  rw [hkv]
  rw [andThen_ok _ (slothDecode_concrete_ok (by simp [CSState.init]) _ _ kv rn
    DEFAULT_ROUNDS)]
  rw [andThen_ok _ (allocAux_concrete_isSome (by simp [CSState.init]) (by simp)
    ["data node"] "num")]
  simp [CSState.init, CSState.pushInput, CSState.pushAux, CSState.pushDelegated,
    CSState.pushEnforce, List.append_assoc]

theorem por_concrete_none_leaf {s : CSState} (h : s.mode = .concrete)
    (ns : List String) (lambda : Nat) (path : List (Option (Fr × Bool)))
    (root : Option Fr) :
    por ns lambda none path root s =
      (.error (.synthesis .assignmentMissing), s) := by
  unfold por
  rw [andThen_err _ (allocInput_concrete_none h ns "value")]

/-- Concrete-mode execution with every witness supplied except the
original-data leaf: the run fails with a missing-assignment synthesis
error, and everything assembled before the failing step (identity inputs,
replica-leaf section, all parent sections) remains in the state. -/
theorem drgporep_concrete_missing_data
    (lambda m : Nat) (rn rr : Fr) (dr : Option Fr) (pid : List Nat)
    (rnp dnp : List (Option (Fr × Bool)))
    (parents : List (Option Fr)) (paths : List (List (Option (Fr × Bool))))
    (hlen : dnp.length = rnp.length) (hpid : pid.length = 32)
    (hrnp : ∀ e ∈ rnp, e.isSome)
    (hpar : ∀ v ∈ parents, v.isSome)
    (hplen : parents.length ≤ paths.length)
    (hpaths : ∀ p ∈ paths, ∀ e ∈ p, e.isSome) :
    drgporep lambda (some rn) rnp (some rr) parents paths none dnp
      dr (some pid) m (CSState.init .concrete) =
    (.error (.synthesis .assignmentMissing), ⟨.concrete,
      ⟨[], "ONE", some 1⟩ ::
        (packedEntriesF ["prover_id"] (packChunks (bytesBits pid lambda)) 0 ++
         porInputsF ["replica_node merkle proof"] (some rn) rnp (some rr) ++
         parentsInputsF (some rr) parents paths 0),
      [],
      [.delegated ["prover_id bits"] "boolean constraints",
       .delegated ["prover_id"] "packing constraints",
       .delegated ["replica_node merkle proof"] "merkle inclusion constraints"] ++
      parentsBlocksF parents 0⟩) := by
  unfold drgporep
  rw [if_pos hlen, if_pos (by simp [proverIdLenOk, hpid])]
  rw [andThen_ok _ (bytesIntoBooleanVec_concrete_some rfl _ pid lambda)]
  rw [andThen_ok _ (packIntoInputs_concrete_ok (by simp [CSState.init]) _ _
    (bytesBits_known pid lambda))]
  rw [andThen_ok _ (por_concrete_ok (by simp [CSState.init]) _ lambda rn rr rnp hrnp)]
  rw [andThen_ok _ (parentsLoop_concrete_ok lambda rr parents paths 0 _
    (by simp [CSState.init]) hpar hplen hpaths)]
  rw [andThen_err _ (por_concrete_none_leaf (by simp [CSState.init]) _ lambda dnp dr)]
  simp [CSState.init, CSState.pushInput, CSState.pushDelegated, List.append_assoc]

/-! ### Shape-mode execution -/

theorem por_shape_ok (s : CSState) (h : s.mode = .shape) (ns : List String)
    (lambda : Nat) (leaf : Option Fr) (path : List (Option (Fr × Bool)))
    (root : Option Fr) :
    ∃ s', por ns lambda leaf path root s = (.ok (), s') ∧ s'.mode = .shape := by
  unfold por
  rw [andThen_ok _ (allocInput_shape h ns "value" leaf)]
  rw [andThen_ok _ (allocInput_shape (by simp [h]) ns "path" (pathPackedVal path))]
  rw [andThen_ok _ (allocInput_shape (by simp [h]) ns "root" root)]
  exact ⟨_, rfl, by simp [h]⟩

theorem parentsLoop_shape_ok (lambda : Nat) (root : Option Fr) :
    ∀ (parents : List (Option Fr))
      (paths : List (List (Option (Fr × Bool)))) (i : Nat) (s : CSState),
      s.mode = .shape → parents.length ≤ paths.length →
      ∃ s', parentsLoop lambda root parents paths i s = (.ok (), s') ∧
        s'.mode = .shape := by
  intro parents
  induction parents with
  | nil =>
    intro paths i s h _
    exact ⟨s, rfl, h⟩
  | cons v vs ih =>
    intro paths i s h hlen
    cases paths with
    | nil => simp at hlen
    | cons p ps =>
      obtain ⟨s1, heq, hm⟩ :=
        por_shape_ok s h ["replica parent: " ++ toString i] lambda v p root
      simp only [parentsLoop]
      rw [andThen_ok _ heq]
      exact ih ps (i + 1) s1 hm (by simpa using hlen)

theorem parentsLoop_shape_oob (lambda : Nat) (root : Option Fr) :
    ∀ (parents : List (Option Fr))
      (paths : List (List (Option (Fr × Bool)))) (i : Nat) (s : CSState),
      s.mode = .shape → paths.length < parents.length →
      ∃ s', parentsLoop lambda root parents paths i s =
        (.error .indexOutOfBounds, s') := by
  intro parents
  induction parents with
  | nil =>
    intro paths i s _ hlen
    simp at hlen
  | cons v vs ih =>
    intro paths i s h hlen
    cases paths with
    | nil => exact ⟨s, rfl⟩
    | cons p ps =>
      obtain ⟨s1, heq, hm⟩ :=
        por_shape_ok s h ["replica parent: " ++ toString i] lambda v p root
      simp only [parentsLoop]
      rw [andThen_ok _ heq]
      exact ih ps (i + 1) s1 hm (by simpa using hlen)

theorem packLoop_shape_ok (ns : List String) :
    ∀ (chunks : List (List CBool)) (i : Nat) (s : CSState), s.mode = .shape →
      ∃ s', packLoop ns chunks i s = (.ok (), s') ∧ s'.mode = .shape := by
  intro chunks
  induction chunks with
  | nil => intro i s h; exact ⟨s, rfl, h⟩
  | cons c rest ih =>
    intro i s h
    simp only [packLoop]
    rw [andThen_ok _ (allocInput_shape h ns (packedName i) (chunkVal c))]
    exact ih (i + 1) _ (by simp [h])

theorem packIntoInputs_shape_ok (s : CSState) (h : s.mode = .shape)
    (ns : List String) (bits : List CBool) :
    ∃ s', packIntoInputs ns bits s = (.ok (), s') ∧ s'.mode = .shape := by
  unfold packIntoInputs
  obtain ⟨s1, heq, hm⟩ := packLoop_shape_ok ns (packChunks bits) 0 s h
  rw [andThen_ok _ heq]
  exact ⟨_, rfl, by simp [hm]⟩

theorem parentsToBitsLoop_shape_ok :
    ∀ (parents : List (Option Fr)) (i : Nat) (s : CSState), s.mode = .shape →
      ∃ bits s', parentsToBitsLoop parents i s = (.ok bits, s') ∧
        s'.mode = .shape ∧ bits.length = parents.length := by
  intro parents
  induction parents with
  | nil => intro i s h; exact ⟨[], s, rfl, h, rfl⟩
  | cons v vs ih =>
    intro i s h
    simp only [parentsToBitsLoop]
    rw [andThen_ok _ (fieldIntoBooleanVecLEM_shape h _ v)]
    obtain ⟨bits, s', heq, hm, hbl⟩ := ih (i + 1)
      (s.pushDelegated ["parents to bits", "parent " ++ toString i]
        "boolean constraints") (by simp [h])
    rw [andThen_ok _ heq]
    exact ⟨_, _, rfl, hm, by simp [hbl]⟩

theorem kdf_shape_ok (s : CSState) (h : s.mode = .shape) (ns : List String)
    (idBits : List CBool) (pbits : List (List CBool)) (m : Nat)
    (hm : pbits.length = m) :
    ∃ a s', kdf ns idBits pbits m s = (.ok a, s') ∧ s'.mode = .shape := by
  unfold kdf
  rw [if_pos hm]
  rw [andThen_ok _ (allocAux_shape h ns "kdf result" _)]
  exact ⟨_, _, rfl, by simp [h]⟩

theorem slothDecode_shape_ok (s : CSState) (h : s.mode = .shape)
    (ns : List String) (key : ANum) (c : Option Fr) (rounds : Nat) :
    ∃ a s', slothDecode ns key c rounds s = (.ok a, s') ∧ s'.mode = .shape := by
  unfold slothDecode
  rw [andThen_ok _ (allocAux_shape h ns "decoded" _)]
  exact ⟨_, _, rfl, by simp [h]⟩

/-- Shape-mode execution of the orchestrator: whenever the two assertions
pass, there are at least as many parent paths as parent values, and the
parent count matches the degree (the KDF's shape check), assembly
succeeds — no witness value is ever required in shape mode. -/
theorem drgporep_shape_ok
    (lambda m : Nat) (rnode rroot dnode droot : Option Fr)
    (pid : Option (List Nat)) (rnp dnp : List (Option (Fr × Bool)))
    (parents : List (Option Fr)) (paths : List (List (Option (Fr × Bool))))
    {s : CSState} (hs : s.mode = .shape)
    (hlen : dnp.length = rnp.length) (hpid : proverIdLenOk pid = true)
    (hplen : parents.length ≤ paths.length) (hm : parents.length = m) :
    (drgporep lambda rnode rnp rroot parents paths dnode dnp droot pid m s).1 =
      .ok () := by
  unfold drgporep
  rw [if_pos hlen, if_pos hpid]
  rw [andThen_ok _ (bytesIntoBooleanVec_shape hs _ pid lambda)]
  obtain ⟨s2, heq2, hm2⟩ := packIntoInputs_shape_ok
    (s.pushDelegated ["prover_id bits"] "boolean constraints") (by simp [hs])
    ["prover_id"] ((List.range (8 * lambda)).map fun _ => CBool.is none)
  rw [andThen_ok _ heq2]
  obtain ⟨s3, heq3, hm3⟩ := por_shape_ok s2 hm2 ["replica_node merkle proof"]
    lambda rnode rnp rroot
  rw [andThen_ok _ heq3]
  obtain ⟨s4, heq4, hm4⟩ := parentsLoop_shape_ok lambda rroot parents paths 0
    s3 hm3 hplen
  rw [andThen_ok _ heq4]
  obtain ⟨s5, heq5, hm5⟩ := por_shape_ok s4 hm4 ["data node commitment"] lambda
    dnode dnp droot
  rw [andThen_ok _ heq5]
  obtain ⟨bits, s6, heq6, hm6, hbl6⟩ := parentsToBitsLoop_shape_ok parents 0
    s5 hm5
  rw [andThen_ok _ heq6]
  obtain ⟨key, s7, heq7, hm7⟩ := kdf_shape_ok s6 hm6 ["kdf"]
    ((List.range (8 * lambda)).map fun _ => CBool.is none) bits m
    (by rw [hbl6, hm])
  rw [andThen_ok _ heq7]
  obtain ⟨dec, s8, heq8, hm8⟩ := slothDecode_shape_ok s7 hm7
    ["decode replica node commitment"] key rnode DEFAULT_ROUNDS
  rw [andThen_ok _ heq8]
  rw [andThen_ok _ (allocAux_shape hm8 ["data node"] "num" dnode)]

/-- Shape-mode execution with fewer parent paths than parent values: the
parent loop hits the missing path index and the assembly fails with the
fatal index panic. -/
theorem drgporep_shape_oob
    (lambda m : Nat) (rnode rroot dnode droot : Option Fr)
    (pid : Option (List Nat)) (rnp dnp : List (Option (Fr × Bool)))
    (parents : List (Option Fr)) (paths : List (List (Option (Fr × Bool))))
    {s : CSState} (hs : s.mode = .shape)
    (hlen : dnp.length = rnp.length) (hpid : proverIdLenOk pid = true)
    (hplen : paths.length < parents.length) :
    (drgporep lambda rnode rnp rroot parents paths dnode dnp droot pid m s).1 =
      .error .indexOutOfBounds := by
  unfold drgporep
  rw [if_pos hlen, if_pos hpid]
  rw [andThen_ok _ (bytesIntoBooleanVec_shape hs _ pid lambda)]
  obtain ⟨s2, heq2, hm2⟩ := packIntoInputs_shape_ok
    (s.pushDelegated ["prover_id bits"] "boolean constraints") (by simp [hs])
    ["prover_id"] ((List.range (8 * lambda)).map fun _ => CBool.is none)
  rw [andThen_ok _ heq2]
  obtain ⟨s3, heq3, hm3⟩ := por_shape_ok s2 hm2 ["replica_node merkle proof"]
    lambda rnode rnp rroot
  rw [andThen_ok _ heq3]
  obtain ⟨s4, heq4⟩ := parentsLoop_shape_oob lambda rroot parents paths 0
    s3 hm3 hplen
  rw [andThen_err _ heq4]

/-! ### Lemmas about the assembled layout -/

@[simp] theorem isRootEnforce_delegated (ns : List String) (t : String) :
    (Constraint.delegated ns t).isRootEnforce = false := rfl

@[simp] theorem isRootEnforce_enforce_nil (n : String) (a b c : LC) :
    (Constraint.enforce [] n a b c).isRootEnforce = true := rfl

theorem parentsBlocksF_filter_root :
    ∀ (vs : List (Option Fr)) (i : Nat),
      (parentsBlocksF vs i).filter Constraint.isRootEnforce = [] := by
  intro vs
  induction vs with
  | nil => intro i; rfl
  | cons v rest ih =>
    intro i
    simp [parentsBlocksF, ih (i + 1)]

theorem p2bBlocksF_filter_root :
    ∀ (vs : List (Option Fr)) (i : Nat),
      (p2bBlocksF vs i).filter Constraint.isRootEnforce = [] := by
  intro vs
  induction vs with
  | nil => intro i; rfl
  | cons v rest ih =>
    intro i
    simp [p2bBlocksF, ih (i + 1)]

theorem packedEntriesF_length (ns : List String) :
    ∀ (chunks : List (List CBool)) (i : Nat),
      (packedEntriesF ns chunks i).length = chunks.length := by
  intro chunks
  induction chunks with
  | nil => intro i; rfl
  | cons c rest ih =>
    intro i
    simp [packedEntriesF, ih (i + 1)]

theorem parentsBlocksF_length :
    ∀ (vs : List (Option Fr)) (i : Nat),
      (parentsBlocksF vs i).length = vs.length := by
  intro vs
  induction vs with
  | nil => intro i; rfl
  | cons v rest ih =>
    intro i
    simp [parentsBlocksF, ih (i + 1)]

theorem parentsInputsF_length (root : Option Fr) :
    ∀ (parents : List (Option Fr))
      (paths : List (List (Option (Fr × Bool)))) (i : Nat),
      parents.length ≤ paths.length →
      (parentsInputsF root parents paths i).length = 3 * parents.length := by
  intro parents
  induction parents with
  | nil => intro paths i _; cases paths <;> rfl
  | cons v vs ih =>
    intro paths i hlen
    cases paths with
    | nil => simp at hlen
    | cons p ps =>
      simp [parentsInputsF, porInputsF, ih ps (i + 1) (by simpa using hlen)]
      omega

theorem parentsInputsF_root_mem (root : Option Fr) :
    ∀ (parents : List (Option Fr))
      (paths : List (List (Option (Fr × Bool)))) (i j : Nat),
      j < parents.length → parents.length ≤ paths.length →
      (⟨["replica parent: " ++ toString (i + j)], "root", root⟩ : InputEntry) ∈
        parentsInputsF root parents paths i := by
  intro parents
  induction parents with
  | nil => intro paths i j hj _; simp at hj
  | cons v vs ih =>
    intro paths i j hj hlen
    cases paths with
    | nil => simp at hlen
    | cons p ps =>
      cases j with
      | zero => simp [parentsInputsF, porInputsF]
      | succ j2 =>
        have h1 : i + (j2 + 1) = (i + 1) + j2 := by omega
        rw [h1]
        have h2 := ih ps (i + 1) j2 (by simpa using hj) (by simpa using hlen)
        simp only [parentsInputsF, List.mem_append]
        exact Or.inr h2

theorem fieldIntoBooleanVecLE_length (v : Option Fr) :
    (fieldIntoBooleanVecLE v).length = frNumBits := by
  simp [fieldIntoBooleanVecLE]

theorem padLoop_eq :
    ∀ (fuel : Nat) (v : List CBool), 256 - v.length ≤ fuel →
      padLoop fuel v = v ++ List.replicate (256 - v.length) (.constant false) := by
  intro fuel
  induction fuel with
  | zero =>
    intro v h
    have h0 : 256 - v.length = 0 := Nat.le_zero.mp h
    rw [h0]
    simp [padLoop]
  | succ f ih =>
    intro v h
    simp only [padLoop]
    by_cases hlt : v.length < 256
    · rw [if_pos hlt]
      have h3 : 256 - (v ++ [CBool.constant false]).length ≤ f := by
        simp only [List.length_append, List.length_cons, List.length_nil]
        omega
      rw [ih (v ++ [CBool.constant false]) h3]
      have h2 : 256 - v.length = (256 - (v.length + 1)) + 1 := by omega
      rw [List.append_assoc, h2, List.replicate_succ]
      simp
    · rw [if_neg hlt]
      have h0 : 256 - v.length = 0 := by omega
      rw [h0]
      simp

theorem padTo256_eq (v : List CBool) :
    padTo256 v = v ++ List.replicate (256 - v.length) (.constant false) :=
  padLoop_eq 256 v (by omega)

/-- Satisfaction of a single-variable rank-1 constraint, given the three
variables' values. -/
theorem holds_single (s : CSState) (ns : List String) (n : String)
    (va vb vc : Var) (xa xb xc : Fr)
    (ha : s.varVal va = some xa) (hb : s.varVal vb = some xb)
    (hc : s.varVal vc = some xc) :
    Constraint.holds s (.enforce ns n [(va, 1)] [(vb, 1)] [(vc, 1)]) ↔
      xa * xb = xc := by
  simp [Constraint.holds, CSState.lcEval, CSState.lcTerms, ha, hb, hc]

/-! ### The claims -/

/-- C3: for every parent leaf value supplied, the parent bit assembler
produces that parent's little-endian bit decomposition right-padded with
constant-false bits until the vector reaches the fixed width of 256 bits
(the 255-bit decomposition never exceeds 256 bits), yielding one padded
vector per parent with the input parent ordering preserved. -/
theorem C3_parent_bit_assembler (parents : List (Option Fr)) :
    (parentsToBits parents).length = parents.length ∧
    ∀ i, i < parents.length →
      (parentsToBits parents).getD i [] =
        fieldIntoBooleanVecLE (parents.getD i none) ++
          List.replicate (256 - frNumBits) (.constant false) ∧
      ((parentsToBits parents).getD i []).length = 256 := by
  refine ⟨by simp [parentsToBits], ?_⟩
  intro i hi
  have h9 : parents[i]? = some parents[i] := List.getElem?_eq_getElem hi
  have h8 : (parentsToBits parents).getD i [] =
      padTo256 (fieldIntoBooleanVecLE parents[i]) := by
    simp [parentsToBits, List.getD_eq_getElem?_getD, List.getElem?_map, h9]
  have h7 : parents.getD i none = parents[i] := by
    simp [List.getD_eq_getElem?_getD, h9]
  constructor
  · rw [h8, h7, padTo256_eq, fieldIntoBooleanVecLE_length]
  · rw [h8, padTo256_eq]
    simp [fieldIntoBooleanVecLE_length, frNumBits]

theorem C3_parent_bit_assembler_witness :
    (parentsToBits [some (0 : Fr), some 1]).length = 2 ∧
    ((parentsToBits [some (0 : Fr), some 1]).getD 1 [] =
      fieldIntoBooleanVecLE (([some (0 : Fr), some 1] : List (Option Fr)).getD 1 none) ++
        List.replicate (256 - frNumBits) (.constant false) ∧
     ((parentsToBits [some (0 : Fr), some 1]).getD 1 []).length = 256) :=
  ⟨(C3_parent_bit_assembler [some 0, some 1]).1,
   (C3_parent_bit_assembler [some 0, some 1]).2 1 (by decide)⟩

/-- C10: the padding loop never truncates — the assembled vector is always
the decomposition followed by constant-false padding, its length is the
maximum of 256 and the decomposition's length, and an over-width vector is
passed on completely unchanged, with no error or check. -/
theorem C10_no_truncation (v : List CBool) :
    padTo256 v = v ++ List.replicate (256 - v.length) (.constant false) ∧
    (padTo256 v).length = max 256 v.length ∧
    (256 ≤ v.length → padTo256 v = v) := by
  refine ⟨padTo256_eq v, ?_, ?_⟩
  · rw [padTo256_eq]
    simp only [List.length_append, List.length_replicate]
    omega
  · intro h
    rw [padTo256_eq]
    have h0 : 256 - v.length = 0 := by omega
    rw [h0]
    simp

set_option maxRecDepth 20000 in
theorem C10_no_truncation_witness :
    padTo256 (List.replicate 300 (CBool.is none)) =
      List.replicate 300 (CBool.is none) ++
        List.replicate (256 - (List.replicate 300 (CBool.is none)).length)
          (.constant false) ∧
    (padTo256 (List.replicate 300 (CBool.is none))).length =
      max 256 (List.replicate 300 (CBool.is none)).length ∧
    padTo256 (List.replicate 300 (CBool.is none)) =
      List.replicate 300 (CBool.is none) :=
  ⟨(C10_no_truncation _).1, (C10_no_truncation _).2.1,
   (C10_no_truncation _).2.2 (by decide)⟩

/-- C5: whenever the data leaf path length differs from the replica leaf
path length, assembly fails immediately and fatally (the first assertion),
before any constraint is added — the returned state is exactly the input
state. -/
theorem C5_path_length_precondition
    (lambda m : Nat) (rnode rroot dnode droot : Option Fr)
    (pid : Option (List Nat)) (rnp dnp : List (Option (Fr × Bool)))
    (parents : List (Option Fr)) (paths : List (List (Option (Fr × Bool))))
    (cs0 : CSState) (h : dnp.length ≠ rnp.length) :
    drgporep lambda rnode rnp rroot parents paths dnode dnp droot pid m cs0 =
      (.error (.assertFail "data_node_path.len() == replica_node_path.len()"),
        cs0) := by
  unfold drgporep
  rw [if_neg h]

theorem C5_path_length_precondition_witness :
    drgporep 32 none [none] none [] [] none [] none none 6
      (CSState.init .shape) =
    (.error (.assertFail "data_node_path.len() == replica_node_path.len()"),
      CSState.init .shape) :=
  C5_path_length_precondition 32 6 none none none none none [none] [] [] []
    (CSState.init .shape) (by decide)

/-- C7: a present prover identity whose byte length differs from 32 fails
the length assertion fatally with the state untouched; an absent identity
is never length-checked and shape-mode assembly (on an otherwise
well-shaped instance, parent count matching the degree) proceeds to
success. -/
theorem C7_prover_id_length_check :
    (∀ (lambda m : Nat) (rnode rroot dnode droot : Option Fr) (p : List Nat)
       (rnp dnp : List (Option (Fr × Bool))) (parents : List (Option Fr))
       (paths : List (List (Option (Fr × Bool)))) (cs0 : CSState),
       dnp.length = rnp.length → p.length ≠ 32 →
       drgporep lambda rnode rnp rroot parents paths dnode dnp droot (some p) m
         cs0 = (.error (.assertFail "prover_id.len() == 32"), cs0)) ∧
    (∀ (lambda m : Nat) (rnode rroot dnode droot : Option Fr)
       (rnp dnp : List (Option (Fr × Bool))) (parents : List (Option Fr))
       (paths : List (List (Option (Fr × Bool)))),
       dnp.length = rnp.length → parents.length ≤ paths.length →
       parents.length = m →
       (drgporep lambda rnode rnp rroot parents paths dnode dnp droot none m
         (CSState.init .shape)).1 = .ok ()) := by
  constructor
  · intro lambda m rnode rroot dnode droot p rnp dnp parents paths cs0 hlen hne
    unfold drgporep
    rw [if_pos hlen, if_neg (by simp [proverIdLenOk, hne])]
  · intro lambda m rnode rroot dnode droot rnp dnp parents paths hlen hplen hm
    exact drgporep_shape_ok lambda m rnode rroot dnode droot none rnp dnp
      parents paths rfl hlen rfl hplen hm

theorem C7_prover_id_length_check_witness :
    drgporep 32 none [none] none [] [] none [none] none (some [0]) 6
      (CSState.init .shape) =
      (.error (.assertFail "prover_id.len() == 32"), CSState.init .shape) ∧
    (drgporep 32 none [none] none [none] [[none]] none [none] none none 1
      (CSState.init .shape)).1 = .ok () :=
  ⟨C7_prover_id_length_check.1 32 6 none none none none [0] [none] [none] [] []
    (CSState.init .shape) rfl (by decide),
   C7_prover_id_length_check.2 32 1 none none none none [none] [none] [none]
    [[none]] rfl (by decide) (by decide)⟩

/-- C4 (amended): the orchestrator never compares the number of parent
values with the number of parent paths. With fewer paths than values,
assembly fails fatally with the index panic only when the parent loop
reaches the first missing path; with at least as many paths as values the
surplus paths are silently ignored, and — whenever the parent count matches
the degree (the only count the KDF validates) — assembly succeeds despite
the value/path mismatch. -/
theorem C4_amended_no_parent_count_check
    (lambda m : Nat) (rnode rroot dnode droot : Option Fr)
    (pid : Option (List Nat)) (rnp dnp : List (Option (Fr × Bool)))
    (parents : List (Option Fr)) (paths : List (List (Option (Fr × Bool))))
    {s : CSState} (hs : s.mode = .shape) (hlen : dnp.length = rnp.length)
    (hpid : proverIdLenOk pid = true) :
    (paths.length < parents.length →
      (drgporep lambda rnode rnp rroot parents paths dnode dnp droot pid m
        s).1 = .error .indexOutOfBounds) ∧
    (parents.length ≤ paths.length → parents.length = m →
      (drgporep lambda rnode rnp rroot parents paths dnode dnp droot pid m
        s).1 = .ok ()) :=
  ⟨fun h => drgporep_shape_oob lambda m rnode rroot dnode droot pid rnp dnp
      parents paths hs hlen hpid h,
   fun h hm => drgporep_shape_ok lambda m rnode rroot dnode droot pid rnp dnp
      parents paths hs hlen hpid h hm⟩

theorem C4_amended_no_parent_count_check_witness :
    (drgporep 32 none [none] none [none, none] [[none]] none [none] none none
      6 (CSState.init .shape)).1 = .error .indexOutOfBounds ∧
    (drgporep 32 none [none] none [none] [[none], [none]] none [none] none
      none 1 (CSState.init .shape)).1 = .ok () :=
  ⟨(C4_amended_no_parent_count_check 32 6 none none none none none [none]
      [none] [none, none] [[none]] rfl rfl rfl).1 (by decide),
   (C4_amended_no_parent_count_check 32 1 none none none none none [none]
      [none] [none] [[none], [none]] rfl rfl rfl).2 (by decide) (by decide)⟩

set_option maxRecDepth 20000 in
/-- C4 counterexample: with one parent value, two parent paths and degree
one, the value and path counts differ, yet assembly succeeds (the surplus
path is silently ignored and the KDF sees a parent count equal to the
degree) — there is no value/path count precondition, contrary to the claim
that any such mismatch fails assembly. -/
theorem C4_parent_count_counterexample :
    (([none] : List (Option Fr)).length ≠
      ([[none], [none]] : List (List (Option (Fr × Bool)))).length) ∧
    runMismatch.1 = .ok () :=
  ⟨by decide, rfl⟩

/-- C6: omitting the original-data leaf while requesting concrete-witness
assembly fails with the missing-assignment synthesis error; omitting it
while requesting only shape generation (on an otherwise well-shaped
instance, parent count matching the degree) succeeds. -/
theorem C6_missing_data_leaf :
    (∀ (lambda m : Nat) (rn rr : Fr) (dr : Option Fr) (pid : List Nat)
       (rnp dnp : List (Option (Fr × Bool))) (parents : List (Option Fr))
       (paths : List (List (Option (Fr × Bool)))),
       dnp.length = rnp.length → pid.length = 32 →
       (∀ e ∈ rnp, e.isSome) → (∀ v ∈ parents, v.isSome) →
       parents.length ≤ paths.length → (∀ p ∈ paths, ∀ e ∈ p, e.isSome) →
       (drgporep lambda (some rn) rnp (some rr) parents paths none dnp dr
         (some pid) m (CSState.init .concrete)).1 =
         .error (.synthesis .assignmentMissing)) ∧
    (∀ (lambda m : Nat) (rnode rroot droot : Option Fr)
       (pid : Option (List Nat)) (rnp dnp : List (Option (Fr × Bool)))
       (parents : List (Option Fr)) (paths : List (List (Option (Fr × Bool)))),
       dnp.length = rnp.length → proverIdLenOk pid = true →
       parents.length ≤ paths.length → parents.length = m →
       (drgporep lambda rnode rnp rroot parents paths none dnp droot pid m
         (CSState.init .shape)).1 = .ok ()) := by
  constructor
  · intro lambda m rn rr dr pid rnp dnp parents paths hlen hpid hrnp hpar
      hplen hpaths
    rw [drgporep_concrete_missing_data lambda m rn rr dr pid rnp dnp parents
      paths hlen hpid hrnp hpar hplen hpaths]
  · intro lambda m rnode rroot droot pid rnp dnp parents paths hlen hpid
      hplen hm
    exact drgporep_shape_ok lambda m rnode rroot none droot pid rnp dnp
      parents paths rfl hlen hpid hplen hm

set_option maxRecDepth 20000 in
theorem C6_missing_data_leaf_witness :
    runNoData.1 = .error (.synthesis .assignmentMissing) ∧
    (drgporep 32 none [none] none [none] [[none]] none [none] none none 1
      (CSState.init .shape)).1 = .ok () :=
  ⟨C6_missing_data_leaf.1 32 6 0 0 (some 0) (List.replicate 32 0)
    [some (0, false)] [some (0, false)] [some 0] [[some (0, false)]] rfl
    (by decide) (by decide) (by decide) (by decide) (by decide),
   C6_missing_data_leaf.2 32 1 none none none none [none] [none] [none]
    [[none]] rfl rfl (by decide) (by decide)⟩

/-- C8 (amended): assembly-time errors propagate immediately and unchanged
to the caller with no local recovery and no retry — but the failing call
does leave a partial circuit behind: the public inputs and constraint
blocks added before the failing step remain in the constraint system. -/
theorem C8_amended_error_propagation
    (lambda m : Nat) (rn rr : Fr) (dr : Option Fr) (pid : List Nat)
    (rnp dnp : List (Option (Fr × Bool))) (parents : List (Option Fr))
    (paths : List (List (Option (Fr × Bool))))
    (hlen : dnp.length = rnp.length) (hpid : pid.length = 32)
    (hrnp : ∀ e ∈ rnp, e.isSome) (hpar : ∀ v ∈ parents, v.isSome)
    (hplen : parents.length ≤ paths.length)
    (hpaths : ∀ p ∈ paths, ∀ e ∈ p, e.isSome)
    (r : Except AsmError Unit) (cs' : CSState)
    (hrun : drgporep lambda (some rn) rnp (some rr) parents paths none dnp dr
      (some pid) m (CSState.init .concrete) = (r, cs')) :
    r = .error (.synthesis .assignmentMissing) ∧
    cs'.inputs.length =
      1 + (packChunks (bytesBits pid lambda)).length + 3 + 3 * parents.length ∧
    cs'.constraints.length = 3 + parents.length := by
  rw [drgporep_concrete_missing_data lambda m rn rr dr pid rnp dnp parents
    paths hlen hpid hrnp hpar hplen hpaths] at hrun
  injection hrun with h1 h2
  subst h2
  refine ⟨h1.symm, ?_, ?_⟩
  · simp [packedEntriesF_length, porInputsF, parentsInputsF_length _ _ _ _ hplen]
    omega
  · simp [parentsBlocksF_length]
    omega

set_option maxRecDepth 20000 in
theorem C8_amended_error_propagation_witness :
    runNoData.1 = .error (.synthesis .assignmentMissing) ∧
    runNoData.2.inputs.length =
      1 + (packChunks (bytesBits (List.replicate 32 0) 32)).length + 3 + 3 * 1 ∧
    runNoData.2.constraints.length = 3 + 1 :=
  C8_amended_error_propagation 32 6 0 0 (some 0) (List.replicate 32 0)
    [some (0, false)] [some (0, false)] [some 0] [[some (0, false)]] rfl
    (by decide) (by decide) (by decide) (by decide) (by decide)
    runNoData.1 runNoData.2 rfl

set_option maxRecDepth 20000 in
/-- C8 counterexample: after this failed call (everything witnessed except
the data leaf) the constraint system is not left empty — it still holds the
nine public inputs and four constraint blocks contributed by the failed
call, refuting the claim that a failed call leaves no constraints or public
inputs behind. -/
theorem C8_partial_circuit_counterexample :
    runNoData.1 = .error (.synthesis .assignmentMissing) ∧
    runNoData.2.inputs.length = 9 ∧
    runNoData.2.constraints.length = 4 ∧
    (CSState.init .concrete).inputs.length = 1 ∧
    (CSState.init .concrete).constraints.length = 0 :=
  ⟨rfl, rfl, rfl, rfl, rfl⟩

/-- C1: on every fully witnessed, degree-consistent invocation, the
equality binder allocates
a witness variable carrying the original-data leaf value, and the single
constraint the orchestrator itself adds (its only root-namespace
constraint) is the rank-1 equality between the decode output and that
witness variable: it is satisfied exactly when the decoded candidate value
equals the data leaf value. -/
theorem C1_equality_binder
    (lambda m : Nat) (rn rr dnv drt : Fr) (pid : List Nat)
    (rnp dnp : List (Option (Fr × Bool))) (parents : List (Option Fr))
    (paths : List (List (Option (Fr × Bool))))
    (hlen : dnp.length = rnp.length) (hpid : pid.length = 32)
    (hrnp : ∀ e ∈ rnp, e.isSome) (hdnp : ∀ e ∈ dnp, e.isSome)
    (hpar : ∀ v ∈ parents, v.isSome) (hplen : parents.length ≤ paths.length)
    (hpaths : ∀ p ∈ paths, ∀ e ∈ p, e.isSome) (hm : parents.length = m)
    (r : Except AsmError Unit) (cs' : CSState)
    (hrun : drgporep lambda (some rn) rnp (some rr) parents paths (some dnv)
      dnp (some drt) (some pid) m (CSState.init .concrete) = (r, cs')) :
    r = .ok () ∧
    cs'.rootEnforces = [.enforce [] "encrypted matches data_node constraint"
      [(.aux 2, 1)] [(.input 0, 1)] [(.aux 1, 1)]] ∧
    cs'.aux[2]? = some ⟨["data node"], "num", some dnv⟩ ∧
    (Constraint.holds cs' (.enforce [] "encrypted matches data_node constraint"
        [(.aux 2, 1)] [(.input 0, 1)] [(.aux 1, 1)]) ↔
      cs'.varVal (.aux 1) = some dnv) := by
  obtain ⟨kv, hkv, hrun2⟩ := drgporep_concrete_run lambda m rn rr dnv drt pid
    rnp dnp parents paths hlen hpid hrnp hdnp hpar hplen hpaths hm
  rw [hrun2] at hrun
  injection hrun with h1 h2
  have ha : cs'.varVal (.aux 2) = some dnv := by
    rw [← h2]
    simp [CSState.varVal, List.getElem?_cons_succ, List.getElem?_cons_zero]
  have hb : cs'.varVal (.input 0) = some 1 := by
    rw [← h2]
    simp [CSState.varVal, List.getElem?_cons_zero]
  have hc : cs'.varVal (.aux 1) = some (slothDecodeVal kv rn DEFAULT_ROUNDS) := by
    rw [← h2]
    simp [CSState.varVal, List.getElem?_cons_succ, List.getElem?_cons_zero]
  refine ⟨h1.symm, ?_, ?_, ?_⟩
  · rw [← h2]
    simp [CSState.rootEnforces, List.filter_append, parentsBlocksF_filter_root,
      p2bBlocksF_filter_root]
  · rw [← h2]
    simp [List.getElem?_cons_succ, List.getElem?_cons_zero]
  · rw [holds_single cs' [] "encrypted matches data_node constraint"
      (.aux 2) (.input 0) (.aux 1) dnv 1 (slothDecodeVal kv rn DEFAULT_ROUNDS)
      ha hb hc, hc]
    simp only [mul_one, Option.some.injEq]
    exact eq_comm

/-- C2 (amended): in the public-input vector assembled per challenge, each
parent contributes its leaf value, its path direction bits AND a fresh
public input re-emitting the replica root: every inclusion check exposes
its root as a public input, so the root value is repeated once per parent
rather than shared. -/
theorem C2_amended_root_reemitted_per_parent
    (lambda m : Nat) (rn rr dnv drt : Fr) (pid : List Nat)
    (rnp dnp : List (Option (Fr × Bool))) (parents : List (Option Fr))
    (paths : List (List (Option (Fr × Bool))))
    (hlen : dnp.length = rnp.length) (hpid : pid.length = 32)
    (hrnp : ∀ e ∈ rnp, e.isSome) (hdnp : ∀ e ∈ dnp, e.isSome)
    (hpar : ∀ v ∈ parents, v.isSome) (hplen : parents.length ≤ paths.length)
    (hpaths : ∀ p ∈ paths, ∀ e ∈ p, e.isSome) (hm : parents.length = m)
    (r : Except AsmError Unit) (cs' : CSState)
    (hrun : drgporep lambda (some rn) rnp (some rr) parents paths (some dnv)
      dnp (some drt) (some pid) m (CSState.init .concrete) = (r, cs')) :
    r = .ok () ∧
    ∀ i, i < parents.length →
      (⟨["replica parent: " ++ toString i], "root", some rr⟩ : InputEntry) ∈
        cs'.inputs := by
  obtain ⟨kv, hkv, hrun2⟩ := drgporep_concrete_run lambda m rn rr dnv drt pid
    rnp dnp parents paths hlen hpid hrnp hdnp hpar hplen hpaths hm
  rw [hrun2] at hrun
  injection hrun with h1 h2
  subst h2
  refine ⟨h1.symm, ?_⟩
  intro i hi
  have hmem := parentsInputsF_root_mem (some rr) parents paths 0 i hi hplen
  rw [Nat.zero_add] at hmem
  simp only [List.mem_cons, List.mem_append]
  tauto

set_option maxRecDepth 20000 in
theorem C2_amended_root_reemitted_per_parent_witness :
    runFull.1 = .ok () ∧
    (⟨["replica parent: " ++ toString 0], "root", some 0⟩ : InputEntry) ∈
      runFull.2.inputs := by
  have h := C2_amended_root_reemitted_per_parent 32 2 0 0 0 0
    (List.replicate 32 0) [some (0, false)] [some (0, false)]
    [some 0, some 0] [[some (0, false)], [some (0, false)]] rfl (by decide)
    (by decide) (by decide) (by decide) (by decide) (by decide) (by decide)
    runFull.1 runFull.2 rfl
  exact ⟨h.1, h.2 0 (by decide)⟩

set_option maxRecDepth 20000 in
/-- C2 counterexample: on a fully witnessed two-parent instance the
assembled input vector contains a root input inside each parent's
namespace, and four root inputs in total (replica, parent 0, parent 1,
data) — the root commitment is re-emitted per parent, contrary to the
claim that parents contribute only leaf value and path bits. -/
theorem C2_root_reemission_counterexample :
    runFull.1 = .ok () ∧
    (⟨["replica parent: 0"], "root", some 0⟩ : InputEntry) ∈
      runFull.2.inputs ∧
    (⟨["replica parent: 1"], "root", some 0⟩ : InputEntry) ∈
      runFull.2.inputs ∧
    (runFull.2.inputs.filter fun e => e.name == "root").length = 4 :=
  ⟨rfl, by decide, by decide, rfl⟩

/-- The spec's regression shape reproduced in the model: with a 32-byte
leaf size, six parents, depth-4 paths and one challenge, the assembled
circuit has exactly 27 public inputs (ONE, two packed identity inputs, and
three inputs for each of the eight inclusion checks). -/
theorem runSpecParams_inputs_27 :
    runSpecParams.1 = .ok () ∧ runSpecParams.2.inputs.length = 27 := by
  obtain ⟨kv, hkv, heq⟩ := drgporep_concrete_run 32 6 0 0 0 0
    (List.replicate 32 0) (List.replicate 4 (some (0, false)))
    (List.replicate 4 (some (0, false))) (List.replicate 6 (some 0))
    (List.replicate 6 (List.replicate 4 (some (0, false)))) rfl (by decide)
    (by decide) (by decide) (by decide) (by decide) (by decide) (by decide)
  unfold runSpecParams
  rw [heq]
  refine ⟨rfl, ?_⟩
  simp [packedEntriesF_length, porInputsF, parentsInputsF, packChunks,
    bytesBits, capacity]

set_option maxRecDepth 20000 in
theorem C1_equality_binder_witness :
    runFull.1 = .ok () ∧
    runFull.2.rootEnforces = [.enforce []
      "encrypted matches data_node constraint"
      [(.aux 2, 1)] [(.input 0, 1)] [(.aux 1, 1)]] ∧
    runFull.2.aux[2]? = some ⟨["data node"], "num", some 0⟩ ∧
    (Constraint.holds runFull.2 (.enforce []
        "encrypted matches data_node constraint"
        [(.aux 2, 1)] [(.input 0, 1)] [(.aux 1, 1)]) ↔
      runFull.2.varVal (.aux 1) = some 0) :=
  C1_equality_binder 32 2 0 0 0 0 (List.replicate 32 0) [some (0, false)]
    [some (0, false)] [some 0, some 0] [[some (0, false)], [some (0, false)]]
    rfl (by decide) (by decide) (by decide) (by decide) (by decide)
    (by decide) (by decide) runFull.1 runFull.2 rfl

end DrgPorep
